import Mathlib

/-
  Verification development for the Run Lifecycle Orchestrator of the
  Federated-GNN-Lab frontend.

  The embedding translates, at the level of observable data flow:
    - the newline-delimited JSON stream decoder of
      frontend/components/FLVisualizer.tsx (handleStartTraining's read loop);
    - the run-identifier resolution (header / first embedded run_id / fallback);
    - the readiness poller of frontend/app/page.tsx
      (handleTrainingComplete / checkAndShow / checkAnalysisReady);
    - the unload cleanup (handleUnload) and the other exit paths.

  JS strings are modelled as `String` or `List Char`; chunks arriving from the
  response body are modelled as text chunks (`List Char`).  `JSON.parse` is a
  parameter `f : List Char → Option BackendRoundData` (`none` models a parse
  exception).  Timers are modelled by the list of readiness-query outcomes the
  periodic callback would consume, and network sends by explicit result lists.
-/

namespace FedLab

/-- Embeds JS `buffer.split("\n")` on text: splits a character list at every
newline, keeping empty pieces, always returning at least one piece. -/
def splitNl : List Char → List (List Char)
  | [] => [[]]
  | c :: cs =>
    if c = '\n' then [] :: splitNl cs
    else
      match splitNl cs with
      | [] => [[c]]
      | h :: t => (c :: h) :: t

/-- Last element of a piece list, defaulting to the empty piece; embeds JS
`lines.pop() || ""`. -/
def lastD : List (List Char) → List Char
  | [] => []
  | [x] => x
  | _ :: x :: xs => lastD (x :: xs)

/-- Prepends a fragment onto the head piece of a split (the residual-buffer
glue when two texts are concatenated). -/
def glueHead (p : List Char) : List (List Char) → List (List Char)
  | [] => [p]
  | h :: t => (p ++ h) :: t

theorem splitNl_ne_nil (l : List Char) : splitNl l ≠ [] := by
  induction l with
  | nil => simp [splitNl]
  | cons c cs ih =>
    simp only [splitNl]
    split
    · simp
    · cases h : splitNl cs with
      | nil => exact absurd h ih
      | cons a t => simp

theorem glueHead_ne_nil (p : List Char) (l : List (List Char)) : glueHead p l ≠ [] := by
  cases l <;> simp [glueHead]

theorem lastD_cons_ne (a : List Char) (l : List (List Char)) (h : l ≠ []) :
    lastD (a :: l) = lastD l := by
  cases l with
  | nil => exact absurd rfl h
  | cons b t => rfl

theorem dropLast_cons_ne {α : Type} (a : α) (l : List α) (h : l ≠ []) :
    (a :: l).dropLast = a :: l.dropLast := by
  cases l with
  | nil => exact absurd rfl h
  | cons b t => rfl

theorem lastD_append_ne (xs ys : List (List Char)) (h : ys ≠ []) :
    lastD (xs ++ ys) = lastD ys := by
  induction xs with
  | nil => rfl
  | cons x xs ih =>
    have hne : xs ++ ys ≠ [] := by
      intro hc
      exact h (List.append_eq_nil.mp hc).2
    rw [List.cons_append, lastD_cons_ne _ _ hne, ih]

theorem dropLast_append_ne {α : Type} (xs ys : List α) (h : ys ≠ []) :
    (xs ++ ys).dropLast = xs ++ ys.dropLast := by
  induction xs with
  | nil => rfl
  | cons x xs ih =>
    have hne : xs ++ ys ≠ [] := by
      intro hc
      exact h (List.append_eq_nil.mp hc).2
    rw [List.cons_append, dropLast_cons_ne _ _ hne, ih, List.cons_append]

theorem splitNl_append (x y : List Char) :
    splitNl (x ++ y) =
      (splitNl x).dropLast ++ glueHead (lastD (splitNl x)) (splitNl y) := by
  induction x with
  | nil =>
    cases h : splitNl y with
    | nil => exact absurd h (splitNl_ne_nil y)
    | cons a t => simp [splitNl, lastD, glueHead, h]
  | cons c cs ih =>
    by_cases hc : c = '\n'
    · subst hc
      have h1 : splitNl ('\n' :: cs) = [] :: splitNl cs := by simp [splitNl]
      have h2 : splitNl ('\n' :: (cs ++ y)) = [] :: splitNl (cs ++ y) := by simp [splitNl]
      rw [List.cons_append, h2, ih, h1,
        dropLast_cons_ne _ _ (splitNl_ne_nil cs),
        lastD_cons_ne _ _ (splitNl_ne_nil cs), List.cons_append]
    · cases hcs : splitNl cs with
      | nil => exact absurd hcs (splitNl_ne_nil cs)
      | cons h t =>
        have h1 : splitNl (c :: cs) = (c :: h) :: t := by
          simp [splitNl, hc, hcs]
        cases hcy : splitNl (cs ++ y) with
        | nil => exact absurd hcy (splitNl_ne_nil (cs ++ y))
        | cons h' t' =>
          have h2 : splitNl (c :: (cs ++ y)) = (c :: h') :: t' := by
            simp [splitNl, hc, hcy]
          rw [List.cons_append, h2]
          cases t with
          | nil =>
            cases hy : splitNl y with
            | nil => exact absurd hy (splitNl_ne_nil y)
            | cons yh yt =>
              rw [ih, hcs, hy] at hcy
              simp [lastD, glueHead, hy] at hcy
              rw [h1]
              simp [lastD, glueHead, hy, hcy.1, hcy.2]
          | cons t0 t1 =>
            rw [ih, hcs] at hcy
            have hd : ((h :: t0 :: t1).dropLast ++
                glueHead (lastD (h :: t0 :: t1)) (splitNl y)) =
                h :: ((t0 :: t1).dropLast ++
                  glueHead (lastD (t0 :: t1)) (splitNl y)) := by
              rw [dropLast_cons_ne _ _ (by simp),
                lastD_cons_ne _ _ (by simp), List.cons_append]
            rw [hd] at hcy
            have hh : h' = h := by
              have := congrArg (List.head? ·) hcy
              simpa using this.symm
            have ht : t' = (t0 :: t1).dropLast ++
                glueHead (lastD (t0 :: t1)) (splitNl y) := by
              have := congrArg (List.tail ·) hcy
              simpa using this.symm
            rw [h1, dropLast_cons_ne _ _ (by simp),
              lastD_cons_ne _ _ (by simp), List.cons_append, hh, ht]

theorem mem_splitNl_no_newline (l : List Char) :
    ∀ p ∈ splitNl l, '\n' ∉ p := by
  induction l with
  | nil =>
    intro p hp
    simp [splitNl] at hp
    simp [hp]
  | cons c cs ih =>
    intro p hp
    by_cases hc : c = '\n'
    · subst hc
      simp [splitNl] at hp
      cases hp with
      | inl h => simp [h]
      | inr h => exact ih p h
    · cases hcs : splitNl cs with
      | nil => exact absurd hcs (splitNl_ne_nil cs)
      | cons h t =>
        simp [splitNl, hc, hcs] at hp
        cases hp with
        | inl hp =>
          subst hp
          intro hmem
          cases hmem with
          | head => exact hc rfl
          | tail _ hm => exact ih h (by simp [hcs]) hm
        | inr hp => exact ih p (by simp [hcs, hp])

theorem lastD_mem (l : List (List Char)) (h : l ≠ []) : lastD l ∈ l := by
  induction l with
  | nil => exact absurd rfl h
  | cons a t ih =>
    cases t with
    | nil => simp [lastD]
    | cons b u =>
      have := ih (by simp)
      rw [lastD_cons_ne _ _ (by simp)]
      exact List.mem_cons_of_mem a this

theorem splitNl_singleton (l : List Char) (h : '\n' ∉ l) : splitNl l = [l] := by
  induction l with
  | nil => rfl
  | cons c cs ih =>
    have hc : c ≠ '\n' := fun hcc => h (hcc ▸ List.mem_cons_self c cs)
    have hcs : '\n' ∉ cs := fun hm => h (List.mem_cons_of_mem c hm)
    simp [splitNl, hc, ih hcs]

/-- Wire shape of one streamed line (FLVisualizer.tsx, interface
BackendRoundData): round, global_loss, per-client train/val losses (key
insertion order preserved as list order), optional run_id. -/
structure BackendRoundData where
  round : Int
  global_loss : Rat
  client_train : List (String × Rat)
  client_val : List (String × Rat)
  run_id : Option String
deriving DecidableEq, Repr

/-- Formatted per-round datum appended to globalLosses (FLVisualizer.tsx,
interface RoundData): the client maps are flattened to positional lists
client_train_1.. / client_1.. in key order. -/
structure RoundData where
  round : Int
  global_loss : Rat
  clientTrain : List Rat
  clientVal : List Rat
deriving DecidableEq, Repr

/-- Embeds JS `x || 0` applied to a looked-up loss value. -/
def jsOrZero (x : Rat) : Rat := if x = 0 then 0 else x

/-- Embeds the formattedData construction in the stream loop
(FLVisualizer.tsx lines 129-138). -/
def formatRecord (d : BackendRoundData) : RoundData :=
  { round := d.round
    global_loss := d.global_loss
    clientTrain := d.client_train.map (fun p => jsOrZero p.2)
    clientVal := d.client_val.map (fun p => jsOrZero p.2) }

/-- JS whitespace test for the characters relevant here. -/
def isJsWs (c : Char) : Bool :=
  c = ' ' || c = '\t' || c = '\n' || c = '\r' || c = '\x0b' || c = '\x0c'

/-- Embeds the test `!line.trim()` (FLVisualizer.tsx line 121): true iff the
line is empty or all-whitespace. -/
def jsTrimEmpty (l : List Char) : Bool := l.all isJsWs

/-- Embeds `if (data.run_id && !streamRunId) streamRunId = data.run_id`
(FLVisualizer.tsx lines 125-128): the captured id is only written when none is
held yet and the incoming value is a truthy (nonempty) string. -/
def updateRunId (cur rid : Option String) : Option String :=
  match cur with
  | some r => some r
  | none =>
    match rid with
    | some s => if s = "" then none else some s
    | none => none

/-- Decoder-visible session data other than the residual buffer: the formatted
rounds appended to globalLosses, the successfully parsed records in order
(observable via the per-line log), and the captured stream run id. -/
structure DecCore where
  records : List RoundData
  parsedRecs : List BackendRoundData
  streamRunId : Option String
deriving DecidableEq, Repr

/-- Embeds the per-line body of the stream loop (FLVisualizer.tsx lines
120-143): whitespace-only lines are skipped, a line whose parse throws is
dropped (logged only), a parsed line updates the captured run id and appends
the formatted record. `f` stands for `JSON.parse` composed with the
BackendRoundData reading. -/
def handleLine (f : List Char → Option BackendRoundData) (core : DecCore)
    (line : List Char) : DecCore :=
  if jsTrimEmpty line then core
  else
    match f line with
    | none => core
    | some d =>
      { records := core.records ++ [formatRecord d]
        parsedRecs := core.parsedRecs ++ [d]
        streamRunId := updateRunId core.streamRunId d.run_id }

/-- Stream-decoder state: the residual text buffer plus the decoded data. -/
structure StreamState where
  buffer : List Char
  core : DecCore
deriving DecidableEq, Repr

/-- Embeds one iteration of the read loop on a non-final chunk
(FLVisualizer.tsx lines 116-143): append the chunk to the buffer, split on
newlines, keep the final fragment as the new buffer, process each complete
line. -/
def processChunk (f : List Char → Option BackendRoundData) (st : StreamState)
    (chunk : List Char) : StreamState :=
  let pieces := splitNl (st.buffer ++ chunk)
  { buffer := lastD pieces
    core := pieces.dropLast.foldl (handleLine f) st.core }

/-- Initial decoder state: empty buffer, no records, no captured run id. -/
def initStream : StreamState := ⟨[], ⟨[], [], none⟩⟩

/-- Runs the stream loop over a whole chunk sequence; on stream end (`done`)
the leftover buffer is discarded, matching the source, so the result of a run
is the final state whose `core` holds everything decoded. -/
def runDecoder (f : List Char → Option BackendRoundData)
    (chunks : List (List Char)) : StreamState :=
  chunks.foldl (processChunk f) initStream

theorem splitNl_buffer (l b : List Char) :
    splitNl (lastD (splitNl l) ++ b) = glueHead (lastD (splitNl l)) (splitNl b) := by
  have hnl : '\n' ∉ lastD (splitNl l) :=
    mem_splitNl_no_newline l _ (lastD_mem _ (splitNl_ne_nil l))
  rw [splitNl_append, splitNl_singleton _ hnl]
  simp [lastD]

theorem processChunk_append (f : List Char → Option BackendRoundData)
    (st : StreamState) (a b : List Char) :
    processChunk f (processChunk f st a) b = processChunk f st (a ++ b) := by
  simp only [processChunk]
  have hR : splitNl (st.buffer ++ (a ++ b)) =
      (splitNl (st.buffer ++ a)).dropLast ++
        glueHead (lastD (splitNl (st.buffer ++ a))) (splitNl b) := by
    rw [← List.append_assoc, splitNl_append]
  have hQ : splitNl (lastD (splitNl (st.buffer ++ a)) ++ b) =
      glueHead (lastD (splitNl (st.buffer ++ a))) (splitNl b) :=
    splitNl_buffer (st.buffer ++ a) b
  have hne : glueHead (lastD (splitNl (st.buffer ++ a))) (splitNl b) ≠ [] :=
    glueHead_ne_nil _ _
  rw [hQ, hR, lastD_append_ne _ _ hne, dropLast_append_ne _ _ hne,
    List.foldl_append]

theorem foldl_processChunk (f : List Char → Option BackendRoundData) :
    ∀ (rest : List (List Char)) (a : List Char) (st : StreamState),
      (a :: rest).foldl (processChunk f) st = processChunk f st (a ++ rest.flatten) := by
  intro rest
  induction rest with
  | nil => intro a st; simp [List.foldl]
  | cons b rest ih =>
    intro a st
    have h1 : (a :: b :: rest).foldl (processChunk f) st =
        (b :: rest).foldl (processChunk f) (processChunk f st a) := rfl
    rw [h1, ih, processChunk_append]
    simp [List.append_assoc]

theorem runDecoder_join (f : List Char → Option BackendRoundData)
    (chunks : List (List Char)) :
    runDecoder f chunks = runDecoder f [chunks.flatten] := by
  cases chunks with
  | nil => rfl
  | cons a rest =>
    show (a :: rest).foldl (processChunk f) initStream = _
    rw [foldl_processChunk]
    simp [runDecoder, List.foldl]

/-- Embeds JS `a || b` where `a` is a string-or-null and `b` a string: the
left value wins unless it is null or the empty string. -/
def jsOrS (o : Option String) (d : String) : String :=
  match o with
  | none => d
  | some s => if s = "" then d else s

/-- Embeds the generated fallback identifier `fallback-` plus the current
timestamp (FLVisualizer.tsx lines 104 and 148); `now` stands for Date.now(). -/
def fallbackId (now : Nat) : String := "fallback-" ++ toString now

/-- Normalises an optional identifier to `none` when absent or empty —
the truthiness test JS applies to candidate run ids. -/
def presentId (o : Option String) : Option String :=
  match o with
  | some s => if s = "" then none else some s
  | none => none

/-- Embedded id carried by a record, when truthy. -/
def embeddedOf (d : BackendRoundData) : Option String := presentId d.run_id

/-- The `embeddedRunId` of the first decoded record that carries a truthy one
(spec section 4.2, source (2)). -/
def firstEmbedded (recs : List BackendRoundData) : Option String :=
  (recs.filterMap embeddedOf).head?

/-- Embeds the run-id resolution of handleStartTraining: `header` is the
X-Run-Id response header (read case-insensitively once, before the body loop,
lines 91-92), `body` is the chunk sequence of the response body or `none` when
`response.body` is null, and `now` is Date.now() at resolution time.  With a
body, the id handed to onComplete at `done` is
`runIdFromHeader || streamRunId || fallback` (line 104); with no body the
fallback alone is used (lines 145-153). -/
def resolvedRunId (f : List Char → Option BackendRoundData)
    (header : Option String) (body : Option (List (List Char))) (now : Nat) :
    String :=
  match body with
  | none => fallbackId now
  | some chunks =>
    jsOrS header (jsOrS (runDecoder f chunks).core.streamRunId (fallbackId now))

/-- Follows the amended claim's words: with a body, precedence is a present
(nonempty) header id, else the truthy run_id of the first decoded record
carrying one, else the fallback id; with no body, the fallback id always. -/
def specPrecedenceRunId (f : List Char → Option BackendRoundData)
    (header : Option String) (body : Option (List (List Char))) (now : Nat) :
    String :=
  match body with
  | none => fallbackId now
  | some chunks =>
    match presentId header with
    | some h => h
    | none =>
      match firstEmbedded (runDecoder f chunks).core.parsedRecs with
      | some e => e
      | none => fallbackId now

theorem handleLine_runId_inv (f : List Char → Option BackendRoundData)
    (core : DecCore) (line : List Char)
    (h : core.streamRunId = firstEmbedded core.parsedRecs) :
    (handleLine f core line).streamRunId =
      firstEmbedded (handleLine f core line).parsedRecs := by
  unfold handleLine
  split
  · exact h
  · cases hf : f line with
    | none => exact h
    | some d =>
      simp only
      unfold firstEmbedded at h ⊢
      rw [List.filterMap_append]
      cases hfm : core.parsedRecs.filterMap embeddedOf with
      | nil =>
        rw [hfm] at h
        simp only [List.head?] at h
        rw [h]
        cases hr : d.run_id with
        | none => simp [updateRunId, embeddedOf, presentId, List.filterMap, hr]
        | some s =>
          by_cases hs : s = "" <;>
            simp [updateRunId, embeddedOf, presentId, List.filterMap, hr, hs]
      | cons x xs =>
        rw [hfm] at h
        simp only [List.head?] at h
        rw [h]
        simp [updateRunId]

theorem foldl_handleLine_runId_inv (f : List Char → Option BackendRoundData)
    (lines : List (List Char)) (core : DecCore)
    (h : core.streamRunId = firstEmbedded core.parsedRecs) :
    (lines.foldl (handleLine f) core).streamRunId =
      firstEmbedded (lines.foldl (handleLine f) core).parsedRecs := by
  induction lines generalizing core with
  | nil => exact h
  | cons a t ih => exact ih _ (handleLine_runId_inv f core a h)

theorem runDecoder_runId_inv (f : List Char → Option BackendRoundData)
    (chunks : List (List Char)) :
    (runDecoder f chunks).core.streamRunId =
      firstEmbedded (runDecoder f chunks).core.parsedRecs := by
  suffices hgen : ∀ (cs : List (List Char)) (st : StreamState),
      st.core.streamRunId = firstEmbedded st.core.parsedRecs →
      (cs.foldl (processChunk f) st).core.streamRunId =
        firstEmbedded (cs.foldl (processChunk f) st).core.parsedRecs by
    exact hgen chunks initStream rfl
  intro cs
  induction cs with
  | nil => intro st h; exact h
  | cons a t ih =>
    intro st h
    exact ih _ (foldl_handleLine_runId_inv f _ st.core h)

theorem presentId_ne_empty (o : Option String) (e : String)
    (h : presentId o = some e) : e ≠ "" := by
  unfold presentId at h
  cases o with
  | none => simp at h
  | some s =>
    by_cases hs : s = ""
    · simp [hs] at h
    · simp [hs] at h
      subst h
      exact hs

theorem firstEmbedded_ne_empty (recs : List BackendRoundData) (e : String)
    (h : firstEmbedded recs = some e) : e ≠ "" := by
  unfold firstEmbedded at h
  cases hl : recs.filterMap embeddedOf with
  | nil => rw [hl] at h; simp [List.head?] at h
  | cons x xs =>
    rw [hl] at h
    have hxe : x = e := by simpa [List.head?] using h
    have hx : e ∈ recs.filterMap embeddedOf := by
      rw [hl, ← hxe]
      exact List.mem_cons_self x xs
    rcases List.mem_filterMap.mp hx with ⟨d, _, hd⟩
    exact presentId_ne_empty d.run_id e hd

/-- Outcome of one readiness query `fetch(/dissect/status?run_id=...)`:
a JSON body with a ready flag, a non-ok HTTP status, or a thrown
network/transport error. -/
inductive QueryResult where
  | ok (ready : Bool)
  | httpError
  | netError
deriving DecidableEq, Repr

/-- Observable page state relevant to the poller (page.tsx lines 64-70), plus
`queriesIssued`, the count of readiness fetches actually dispatched. -/
structure PollState where
  currentRunId : Option String
  trainingDone : Bool
  pollingAttempts : Nat
  showAnalysis : Bool
  error : Option String
  queriesIssued : Nat
deriving DecidableEq, Repr

/-- Initial page state (page.tsx useState initialisers). -/
def initPollState : PollState := ⟨none, false, 0, false, none, 0⟩

/-- Configured maximum of polling attempts (page.tsx line 70). -/
def maxPollingAttempts : Nat := 24

def noRunIdMsg : String := "Training completed but no runId received"

def statusFailMsg : String := "Failed to check analysis readiness"

def netErrMsg : String := "Network error while checking analysis readiness"

/-- Failure message surfaced when the attempt bound is reached (page.tsx lines
206-208); it names the max-attempts bound and the runId. -/
def maxAttemptsMsg (runId : String) : String :=
  "Failed to load analysis visualizations after " ++ toString maxPollingAttempts
    ++ " attempts. Ensure /dissect/embeddings, /dissect/feature-importance, and "
    ++ "/dissect/divergence-history endpoints are available for runId=" ++ runId ++ "."

/-- Embeds checkAnalysisReady (page.tsx lines 141-170): guards the empty
runId, otherwise issues the readiness fetch; a non-ok status or a thrown
network error sets the page error state and yields false; an ok response
yields its ready flag. -/
def checkAnalysisReady (runId : String) (qr : QueryResult) (st : PollState) :
    Bool × PollState :=
  if runId = "" then (false, { st with error := some "No runId provided for analysis" })
  else
    match qr with
    | .ok ready => (ready, { st with queriesIssued := st.queriesIssued + 1 })
    | .httpError =>
      (false, { st with queriesIssued := st.queriesIssued + 1, error := some statusFailMsg })
    | .netError =>
      (false, { st with queriesIssued := st.queriesIssued + 1, error := some netErrMsg })

/-- Embeds one invocation of checkAndShow (page.tsx lines 191-216).
`closureAttempts` is the value of `pollingAttempts` captured by the useCallback
closure when handleTrainingComplete was created: the functional update
`setPollingAttempts(prev => prev + 1)` advances the real state, but the guard
on line 204 reads the captured constant, so `closureAttempts` stays fixed for
every step of one polling run.  The returned Bool is checkAndShow's own return
value: true means the scheduling loop stops (Ready or max attempts). -/
def checkAndShow (closureAttempts : Nat) (runId : String) (qr : QueryResult)
    (st : PollState) : PollState × Bool :=
  let res := checkAnalysisReady runId qr st
  let st2 := { res.2 with pollingAttempts := res.2.pollingAttempts + 1 }
  if res.1 then ({ st2 with showAnalysis := true }, true)
  else if closureAttempts + 1 ≥ maxPollingAttempts then
    ({ st2 with error := some (maxAttemptsMsg runId), trainingDone := false }, true)
  else (st2, false)

/-- The periodic 5000ms timer (page.tsx lines 225-232): repeats checkAndShow,
consuming successive query outcomes, until a step returns true; the returned
Bool records whether a step ever returned true (the interval cleared itself).
A finite outcome list models a finite observation window of the timer. -/
def pollSteps (closureAttempts : Nat) (runId : String) (st : PollState) :
    List QueryResult → PollState × Bool
  | [] => (st, false)
  | qr :: rest =>
    let res := checkAndShow closureAttempts runId qr st
    if res.2 then (res.1, true)
    else pollSteps closureAttempts runId res.1 rest

/-- Embeds handleTrainingComplete (page.tsx lines 172-233).  An empty runId is
rejected with an error message before any state change, query or timer.
Otherwise the session state is initialised, one immediate checkAndShow runs
synchronously, and only if it does not terminate is the periodic timer armed
(the remaining query outcomes are then consumed by pollSteps).  The returned
Bool records whether the periodic timer was ever armed. -/
def handleTrainingComplete (closureAttempts : Nat) (runId : String)
    (q0 : QueryResult) (rest : List QueryResult) (st : PollState) :
    PollState × Bool :=
  if runId = "" then ({ st with error := some noRunIdMsg }, false)
  else
    let st1 := { st with
      currentRunId := some runId
      trainingDone := true
      pollingAttempts := 0
      showAnalysis := false
      error := none }
    let res := checkAndShow closureAttempts runId q0 st1
    if res.2 then (res.1, false)
    else ((pollSteps closureAttempts runId res.1 rest).1, true)

/-- Embeds the delete-run request body
`JSON.stringify(\x7b run_id: currentRunId, runId: currentRunId \x7d)`
(page.tsx line 100). -/
def deleteRunBody (runId : String) : String :=
  "\x7b\"run_id\":\"" ++ runId ++ "\",\"runId\":\"" ++ runId ++ "\"\x7d"

/-- Embeds handleUnload (page.tsx lines 96-113): the sendBeacon dispatches
performed on a beforeunload event, as (url, body) pairs.  With no resolved
runId nothing is sent; with a truthy runId exactly one beacon is queued. -/
def handleUnload (baseUrl : String) (currentRunId : Option String) :
    List (String × String) :=
  match currentRunId with
  | none => []
  | some r =>
    if r = "" then [] else [(baseUrl ++ "/delete-run", deleteRunBody r)]

/-- The three exit paths the spec names for Lifecycle Cleanup. -/
inductive ExitPath where
  | browserUnload
  | unmount
  | manualRetry
deriving DecidableEq, Repr

/-- Deletion requests dispatched on each exit path: the beforeunload handler
sends via handleUnload (page.tsx lines 96-113); the unmount cleanup only calls
clearInterval on the polling timer and sends nothing (lines 88-93);
handleRetryPolling resets the error and attempt state and restarts polling,
sending nothing (lines 235-240). -/
def exitBeacons (path : ExitPath) (baseUrl : String)
    (currentRunId : Option String) : List (String × String) :=
  match path with
  | .browserUnload => handleUnload baseUrl currentRunId
  | .unmount => []
  | .manualRetry => []

/-- Concrete sample records used to instantiate the JSON.parse parameter in
witnesses; ids follow the spec's concrete scenario (run id "abc"). -/
def recA : BackendRoundData :=
  { round := 1, global_loss := 1, client_train := [("c1", 1)],
    client_val := [("c1", 1)], run_id := some "abc" }

def recC : BackendRoundData :=
  { round := 2, global_loss := 1, client_train := [("c1", 1)],
    client_val := [("c1", 1)], run_id := some "abc" }

def recZ : BackendRoundData :=
  { round := 3, global_loss := 1, client_train := [], client_val := [],
    run_id := some "zzz" }

/-- Concrete stand-in for JSON.parse in witnesses: three recognised lines, all
other lines fail to parse. -/
def toyParse (l : List Char) : Option BackendRoundData :=
  if l = "A".data then some recA
  else if l = "C".data then some recC
  else if l = "Z".data then some recZ
  else none

theorem splitNl_line_cons (a r : List Char) (h : '\n' ∉ a) :
    splitNl (a ++ '\n' :: r) = a :: splitNl r := by
  rw [splitNl_append, splitNl_singleton a h]
  have hr : splitNl ('\n' :: r) = [] :: splitNl r := by simp [splitNl]
  rw [hr]
  simp [lastD, glueHead]

theorem jsOrS_presentId (o : Option String) (d : String) :
    jsOrS o d = match presentId o with | some s => s | none => d := by
  cases o with
  | none => rfl
  | some s => by_cases hs : s = "" <;> simp [jsOrS, presentId, hs]

theorem handleLine_runId_mono (f : List Char → Option BackendRoundData)
    (core : DecCore) (line : List Char) (r : String)
    (h : core.streamRunId = some r) :
    (handleLine f core line).streamRunId = some r := by
  unfold handleLine
  split
  · exact h
  · cases f line with
    | none => exact h
    | some d => simp [updateRunId, h]

theorem foldl_handleLine_runId_mono (f : List Char → Option BackendRoundData)
    (lines : List (List Char)) (core : DecCore) (r : String)
    (h : core.streamRunId = some r) :
    (lines.foldl (handleLine f) core).streamRunId = some r := by
  induction lines generalizing core with
  | nil => exact h
  | cons a t ih => exact ih _ (handleLine_runId_mono f core a r h)

theorem processChunks_runId_mono (f : List Char → Option BackendRoundData)
    (cs : List (List Char)) :
    ∀ (st : StreamState) (r : String), st.core.streamRunId = some r →
      ((cs.foldl (processChunk f) st).core.streamRunId = some r) := by
  induction cs with
  | nil => intro st r h; exact h
  | cons a t ih =>
    intro st r h
    exact ih _ r (foldl_handleLine_runId_mono f _ st.core r h)

/-- C2: for every finite sequence of round-record JSON lines concatenated into
one text and split at arbitrary offsets into chunks, feeding the chunks to the
stream decoder yields exactly the same ordered sequence of parsed records (and
the same formatted round list) as feeding the whole text as a single chunk:
residual-buffer carryover makes decoding invariant under chunking. -/
theorem c2_chunk_boundary_invariance (f : List Char → Option BackendRoundData)
    (chunks : List (List Char)) :
    (runDecoder f chunks).core.parsedRecs =
        (runDecoder f [chunks.flatten]).core.parsedRecs ∧
      (runDecoder f chunks).core.records =
        (runDecoder f [chunks.flatten]).core.records := by
  rw [runDecoder_join f chunks]
  exact ⟨rfl, rfl⟩

/-- C5: a line that fails to parse is dropped and never aborts decoding:
an unparsable line between two valid lines yields exactly the two valid
records, in order (decoding is a total function, so no crash or abort can
occur in the model). -/
theorem c5_malformed_line_dropped (f : List Char → Option BackendRoundData)
    (a b c : List Char) (ra rc : BackendRoundData)
    (hna : '\n' ∉ a) (hnb : '\n' ∉ b) (hnc : '\n' ∉ c)
    (hta : jsTrimEmpty a = false) (htc : jsTrimEmpty c = false)
    (hfa : f a = some ra) (hfb : f b = none) (hfc : f c = some rc) :
    (runDecoder f [a ++ '\n' :: (b ++ '\n' :: (c ++ ['\n']))]).core.parsedRecs
        = [ra, rc] ∧
      (runDecoder f [a ++ '\n' :: (b ++ '\n' :: (c ++ ['\n']))]).core.records
        = [formatRecord ra, formatRecord rc] := by
  have hsplit : splitNl (a ++ '\n' :: (b ++ '\n' :: (c ++ ['\n']))) = [a, b, c, []] := by
    rw [splitNl_line_cons a _ hna, splitNl_line_cons b _ hnb]
    have hc1 : c ++ ['\n'] = c ++ '\n' :: ([] : List Char) := rfl
    rw [hc1, splitNl_line_cons c _ hnc]
    rfl
  have hrun : runDecoder f [a ++ '\n' :: (b ++ '\n' :: (c ++ ['\n']))] =
      processChunk f initStream (a ++ '\n' :: (b ++ '\n' :: (c ++ ['\n']))) := rfl
  rw [hrun]
  simp only [processChunk, initStream, List.nil_append, hsplit]
  cases htb : jsTrimEmpty b with
  | true =>
    constructor <;>
      simp [List.dropLast, List.foldl, handleLine, hta, hfa, htb, htc, hfc]
  | false =>
    constructor <;>
      simp [List.dropLast, List.foldl, handleLine, hta, hfa, htb, hfb, htc, hfc]

/-- Witness for C5 at concrete inputs: the toy parser accepts lines A and C
and rejects B; decoding the single chunk with B between A and C yields the two
records of A and C, in order. -/
theorem c5_malformed_line_dropped_witness :
    (toyParse "A".data = some recA ∧ toyParse "B".data = none ∧
      toyParse "C".data = some recC) ∧
    ((runDecoder toyParse
        ["A".data ++ '\n' :: ("B".data ++ '\n' :: ("C".data ++ ['\n']))]).core.parsedRecs
        = [recA, recC] ∧
      (runDecoder toyParse
        ["A".data ++ '\n' :: ("B".data ++ '\n' :: ("C".data ++ ['\n']))]).core.records
        = [formatRecord recA, formatRecord recC]) :=
  ⟨⟨by decide, by decide, by decide⟩,
    c5_malformed_line_dropped toyParse "A".data "B".data "C".data recA recC
      (by decide) (by decide) (by decide) (by decide) (by decide)
      (by decide) (by decide) (by decide)⟩

/-- C4: once the captured stream run id is non-null it never changes: feeding
any further chunks (in particular records carrying a different embedded
run_id) leaves it, and therefore the id resolved at stream completion,
unchanged.  The header candidate is read once from the response metadata
before the body loop, so no late header value can occur at all. -/
theorem c4_runId_freeze (f : List Char → Option BackendRoundData)
    (header : Option String) (chunks extra : List (List Char)) (r : String)
    (now : Nat) (h : (runDecoder f chunks).core.streamRunId = some r) :
    (runDecoder f (chunks ++ extra)).core.streamRunId = some r ∧
      resolvedRunId f header (some (chunks ++ extra)) now =
        resolvedRunId f header (some chunks) now := by
  have hsplit : runDecoder f (chunks ++ extra) =
      extra.foldl (processChunk f) (runDecoder f chunks) := by
    simp [runDecoder, List.foldl_append]
  have hm : (runDecoder f (chunks ++ extra)).core.streamRunId = some r := by
    rw [hsplit]
    exact processChunks_runId_mono f extra (runDecoder f chunks) r h
  refine ⟨hm, ?_⟩
  simp only [resolvedRunId]
  rw [hm, h]

/-- Witness for C4 at concrete inputs: after a chunk whose record carries
run_id "abc", appending a chunk whose record carries run_id "zzz" changes
neither the captured id nor the resolved id. -/
theorem c4_runId_freeze_witness :
    (runDecoder toyParse ["A\n".data]).core.streamRunId = some "abc" ∧
      ((runDecoder toyParse (["A\n".data] ++ ["Z\n".data])).core.streamRunId
          = some "abc" ∧
        resolvedRunId toyParse none (some (["A\n".data] ++ ["Z\n".data])) 7 =
          resolvedRunId toyParse none (some ["A\n".data]) 7) :=
  ⟨by decide,
    c4_runId_freeze toyParse none ["A\n".data] ["Z\n".data] "abc" 7 (by decide)⟩

/-- Counterexample for C3: with a header identifier "H" present but a response
with no body, the resolved runId is the generated fallback, not "H" — so the
resolved id does not always equal the first existing source in the stated
precedence order. -/
theorem c3_counterexample_no_body_header :
    resolvedRunId toyParse (some "H") none 5 = fallbackId 5 ∧
      fallbackId 5 ≠ "H" :=
  ⟨rfl, by decide⟩

/-- C3 (amended): when the response has a body, the resolved runId follows the
precedence: a present (nonempty) header id; else the truthy run_id of the
first decoded record carrying one; else the fallback (fixed prefix plus
timestamp) — in particular header "H" beats embedded "E".  When the response
has no body, the fallback id is used even if a header id exists. -/
theorem c3_resolution_precedence (f : List Char → Option BackendRoundData)
    (header : Option String) (body : Option (List (List Char))) (now : Nat) :
    resolvedRunId f header body now = specPrecedenceRunId f header body now := by
  cases body with
  | none => rfl
  | some chunks =>
    simp only [resolvedRunId, specPrecedenceRunId]
    rw [jsOrS_presentId header]
    cases presentId header with
    | some hdr => rfl
    | none =>
      rw [runDecoder_runId_inv f chunks]
      cases hfe : firstEmbedded (runDecoder f chunks).core.parsedRecs with
      | none => simp [jsOrS]
      | some e => simp [jsOrS, firstEmbedded_ne_empty _ _ hfe]

/-- C1 at its failing input: a fresh session (useCallback closure captured
pollingAttempts = 0), runId "run1", every readiness query answering
ready:false.  The guard on page.tsx line 204 compares the stale captured
counter, so after the immediate check and 24 timer steps 25 queries have been
issued (the claim forbids a 25th), the session is still polling
(trainingDone = true, showAnalysis = false) and no failure message was ever
surfaced (error = none): the poller never transitions to Failed. -/
theorem c1_stale_counter_never_fails :
    (handleTrainingComplete 0 "run1" (QueryResult.ok false)
        (List.replicate 24 (QueryResult.ok false)) initPollState).1.queriesIssued
        = 25 ∧
      (handleTrainingComplete 0 "run1" (QueryResult.ok false)
        (List.replicate 24 (QueryResult.ok false)) initPollState).1.error = none ∧
      (handleTrainingComplete 0 "run1" (QueryResult.ok false)
        (List.replicate 24 (QueryResult.ok false)) initPollState).1.trainingDone
        = true ∧
      (handleTrainingComplete 0 "run1" (QueryResult.ok false)
        (List.replicate 24 (QueryResult.ok false)) initPollState).1.showAnalysis
        = false := by
  decide

/-- Counterexample for C8: one poll step whose readiness query throws a
network error leaves the page error state set to the transport-error message
(checkAnalysisReady calls setError, page.tsx line 167, and that state is
rendered, lines 373-385) — the failure is surfaced to the user, contrary to
the claim. -/
theorem c8_counterexample_error_surfaced :
    (checkAndShow 0 "run1" QueryResult.netError initPollState).1.error =
        some "Network error while checking analysis readiness" ∧
      (checkAndShow 0 "run1" QueryResult.netError initPollState).2 = false := by
  decide

/-- C8 (amended): a readiness query failing with a network/transport error is
a per-attempt miss — it increments the attempt count, is not fatal, and the
loop continues — but the handler does set the user-visible error state to the
transport-error message on each such miss. -/
theorem c8_transport_error_miss (cA : Nat) (runId : String) (st : PollState)
    (h : runId ≠ "") (hcap : cA + 1 < maxPollingAttempts) :
    checkAndShow cA runId QueryResult.netError st =
      ({ st with pollingAttempts := st.pollingAttempts + 1,
                 queriesIssued := st.queriesIssued + 1,
                 error := some netErrMsg }, false) := by
  have hge : ¬ (cA + 1 ≥ maxPollingAttempts) := not_le.mpr hcap
  simp [checkAndShow, checkAnalysisReady, h, hge]

/-- Witness for C8 (amended) at a concrete step. -/
theorem c8_transport_error_miss_witness :
    (("run1" : String) ≠ "" ∧ 0 + 1 < maxPollingAttempts) ∧
      checkAndShow 0 "run1" QueryResult.netError initPollState =
        ({ initPollState with
            pollingAttempts := 1
            queriesIssued := 1
            error := some netErrMsg }, false) :=
  ⟨⟨by decide, by decide⟩,
    c8_transport_error_miss 0 "run1" initPollState (by decide) (by decide)⟩

/-- C9: invoked with a non-empty runId, the poller performs exactly one
immediate readiness query, and if it reports ready:true the session reaches
the Ready state (showAnalysis = true) with the periodic timer never armed. -/
theorem c9_immediate_ready_no_timer (cA : Nat) (runId : String)
    (rest : List QueryResult) (st : PollState) (h : runId ≠ "") :
    (handleTrainingComplete cA runId (QueryResult.ok true) rest st).2 = false ∧
      (handleTrainingComplete cA runId (QueryResult.ok true) rest st).1.showAnalysis
        = true ∧
      (handleTrainingComplete cA runId (QueryResult.ok true) rest st).1.queriesIssued
        = st.queriesIssued + 1 := by
  simp [handleTrainingComplete, checkAndShow, checkAnalysisReady, h]

/-- Witness for C9 at a concrete invocation. -/
theorem c9_immediate_ready_no_timer_witness :
    ("run1" : String) ≠ "" ∧
      ((handleTrainingComplete 0 "run1" (QueryResult.ok true) [] initPollState).2
          = false ∧
        (handleTrainingComplete 0 "run1" (QueryResult.ok true) []
            initPollState).1.showAnalysis = true ∧
        (handleTrainingComplete 0 "run1" (QueryResult.ok true) []
            initPollState).1.queriesIssued = initPollState.queriesIssued + 1) :=
  ⟨by decide, c9_immediate_ready_no_timer 0 "run1" [] initPollState (by decide)⟩

/-- C10: invoked with an empty runId, the training-complete handler only sets
the error "Training completed but no runId received" and returns: currentRunId,
trainingDone and the attempt count are unchanged, no readiness query is issued
(queriesIssued unchanged) and no timer is armed. -/
theorem c10_empty_runId_rejected (cA : Nat) (q0 : QueryResult)
    (rest : List QueryResult) (st : PollState) :
    handleTrainingComplete cA "" q0 rest st =
      ({ st with error := some noRunIdMsg }, false) := by
  simp [handleTrainingComplete]

/-- C6: at page unload, no resolved runId means zero deletion requests; a
resolved runId "R1" means exactly one fire-and-forget deletion request whose
body contains "R1". -/
theorem c6_unload_cleanup_gating (baseUrl r : String) (h : r ≠ "") :
    handleUnload baseUrl none = [] ∧
      handleUnload baseUrl (some r) = [(baseUrl ++ "/delete-run", deleteRunBody r)] ∧
      ∃ pre suf : String, deleteRunBody r = pre ++ r ++ suf := by
  refine ⟨rfl, by simp [handleUnload, h], ?_⟩
  refine ⟨"\x7b\"run_id\":\"", "\",\"runId\":\"" ++ r ++ "\"\x7d", ?_⟩
  simp [deleteRunBody, String.append_assoc]

/-- Witness for C6 at the concrete runId "R1". -/
theorem c6_unload_cleanup_gating_witness :
    ("R1" : String) ≠ "" ∧
      (handleUnload "b" none = [] ∧
        handleUnload "b" (some "R1") = [("b" ++ "/delete-run", deleteRunBody "R1")] ∧
        ∃ pre suf : String, deleteRunBody "R1" = pre ++ "R1" ++ suf) :=
  ⟨by decide, c6_unload_cleanup_gating "b" "R1" (by decide)⟩

/-- Counterexample for C7: with a resolved runId "R1", the unmount cleanup and
the manual-reset path dispatch zero deletion requests (only the browser-unload
handler sends one), so the deletion is not triggered on every exit path. -/
theorem c7_counterexample_unmount_no_beacon :
    exitBeacons ExitPath.unmount "b" (some "R1") = [] ∧
      exitBeacons ExitPath.manualRetry "b" (some "R1") = [] ∧
      exitBeacons ExitPath.browserUnload "b" (some "R1") ≠ [] := by
  refine ⟨rfl, rfl, ?_⟩
  decide

/-- C7 (amended): for a session with a resolved runId, the deletion request is
dispatched only by the browser-unload handler; the unmount cleanup merely
clears the polling timer and the manual reset restarts polling, neither
sending a deletion request. -/
theorem c7_cleanup_only_on_unload (baseUrl r : String) (path : ExitPath)
    (h : r ≠ "") :
    (path = ExitPath.browserUnload →
        exitBeacons path baseUrl (some r) =
          [(baseUrl ++ "/delete-run", deleteRunBody r)]) ∧
      (path ≠ ExitPath.browserUnload → exitBeacons path baseUrl (some r) = []) := by
  cases path <;> simp [exitBeacons, handleUnload, h]

/-- Witness for C7 (amended) at concrete inputs. -/
theorem c7_cleanup_only_on_unload_witness :
    ("R1" : String) ≠ "" ∧
      ((ExitPath.browserUnload = ExitPath.browserUnload →
          exitBeacons ExitPath.browserUnload "b" (some "R1") =
            [("b" ++ "/delete-run", deleteRunBody "R1")]) ∧
        (ExitPath.browserUnload ≠ ExitPath.browserUnload →
          exitBeacons ExitPath.browserUnload "b" (some "R1") = [])) :=
  ⟨by decide, c7_cleanup_only_on_unload "b" "R1" ExitPath.browserUnload (by decide)⟩

end FedLab
